import Mathlib

/-
Verification development for a browser Tetris implementation.
The definitions below are a shallow embedding of the simulation core:
the tetromino pieces (pieces.js), the game board (board.js) and the
game controller (tetris.js).  JavaScript arrays become Lean lists,
numbers become Int/Nat (all the relevant arithmetic is exact), fractional
millisecond values become Rat, and the DOM / canvas / random-generator
boundaries are abstracted away (the randomly drawn next piece becomes an
explicit parameter).
-/

/-! ### Pieces (pieces.js) -/

inductive PieceType
  | I | O | T | S | Z | J | L
deriving DecidableEq

/-- A 4x4 occupancy mask, stored exactly like the JS nested array literals. -/
abbrev Shape := List (List Nat)

namespace PIECES

/-- Shape table of the PIECES object. -/
def shape : PieceType → Shape
  | .I => [[0, 0, 0, 0], [1, 1, 1, 1], [0, 0, 0, 0], [0, 0, 0, 0]]
  | .O => [[0, 1, 1, 0], [0, 1, 1, 0], [0, 0, 0, 0], [0, 0, 0, 0]]
  | .T => [[0, 1, 0, 0], [1, 1, 1, 0], [0, 0, 0, 0], [0, 0, 0, 0]]
  | .S => [[0, 1, 1, 0], [1, 1, 0, 0], [0, 0, 0, 0], [0, 0, 0, 0]]
  | .Z => [[1, 1, 0, 0], [0, 1, 1, 0], [0, 0, 0, 0], [0, 0, 0, 0]]
  | .J => [[1, 0, 0, 0], [1, 1, 1, 0], [0, 0, 0, 0], [0, 0, 0, 0]]
  | .L => [[0, 0, 1, 0], [1, 1, 1, 0], [0, 0, 0, 0], [0, 0, 0, 0]]

/-- Color table of the PIECES object. -/
def color : PieceType → String
  | .I => "#00ffff"
  | .O => "#ffff00"
  | .T => "#aa00ff"
  | .S => "#00ff00"
  | .Z => "#ff0000"
  | .J => "#0000ff"
  | .L => "#ff7f00"

/-- Spawn offset table of the PIECES object. -/
def spawn : PieceType → Int × Int
  | .I => (3, 0)
  | .O => (4, 0)
  | .T => (3, 0)
  | .S => (3, 0)
  | .Z => (3, 0)
  | .J => (3, 0)
  | .L => (3, 0)

end PIECES

/-- State of a Piece instance. -/
structure Piece where
  type : PieceType
  shape : Shape
  color : String
  x : Int
  y : Int
  rotation : Nat
deriving DecidableEq

/-- The Piece constructor, called without explicit coordinates:
spawns at the type's canonical spawn offset with rotation 0. -/
def Piece.create (t : PieceType) : Piece :=
  { type := t
    shape := PIECES.shape t
    color := PIECES.color t
    x := (PIECES.spawn t).1
    y := (PIECES.spawn t).2
    rotation := 0 }

/-- Body of Piece.rotate acting on the mask: the JS loop fills every entry of
a size x size matrix by rotated[x][size-1-y] = shape[y][x], which is the map
below (entry (r, c) of the result is entry (size-1-c, r) of the input). -/
def rotateShape (shape : Shape) : Shape :=
  let size := shape.length
  (List.range size).map fun r =>
    (List.range size).map fun c => (shape.getD (size - 1 - c) []).getD r 0

/-- Piece.rotate: rotate the mask 90 degrees clockwise and advance the
rotation state mod 4.  (In JS this mutates; here it returns the new piece,
which also models copy-then-rotate as used by the controller.) -/
def Piece.rotate (p : Piece) : Piece :=
  { p with shape := rotateShape p.shape, rotation := (p.rotation + 1) % 4 }

/-- Piece.getWallKickOffsets: the SRS kick table, keyed by the piece's kick
family and the directed rotation transition; unknown transitions fall back
to [(0,0)] and the O family always gets [(0,0)]. -/
def Piece.getWallKickOffsets (p : Piece) (r1 r2 : Nat) : List (Int × Int) :=
  match p.type with
  | .I =>
    match r1, r2 with
    | 0, 1 => [(-2, 0), (1, 0), (-2, -1), (1, 2)]
    | 1, 0 => [(2, 0), (-1, 0), (2, 1), (-1, -2)]
    | 1, 2 => [(-1, 0), (2, 0), (-1, 2), (2, -1)]
    | 2, 1 => [(1, 0), (-2, 0), (1, -2), (-2, 1)]
    | 2, 3 => [(2, 0), (-1, 0), (2, 1), (-1, -2)]
    | 3, 2 => [(-2, 0), (1, 0), (-2, -1), (1, 2)]
    | 3, 0 => [(1, 0), (-2, 0), (1, -2), (-2, 1)]
    | 0, 3 => [(-1, 0), (2, 0), (-1, 2), (2, -1)]
    | _, _ => [(0, 0)]
  | .O => [(0, 0)]
  | _ =>
    match r1, r2 with
    | 0, 1 => [(-1, 0), (-1, 1), (0, -2), (-1, -2)]
    | 1, 0 => [(1, 0), (1, -1), (0, 2), (1, 2)]
    | 1, 2 => [(1, 0), (1, -1), (0, 2), (1, 2)]
    | 2, 1 => [(-1, 0), (-1, 1), (0, -2), (-1, -2)]
    | 2, 3 => [(1, 0), (1, 1), (0, -2), (1, -2)]
    | 3, 2 => [(-1, 0), (-1, -1), (0, 2), (-1, 2)]
    | 3, 0 => [(-1, 0), (-1, -1), (0, 2), (-1, 2)]
    | 0, 3 => [(1, 0), (1, 1), (0, -2), (1, -2)]
    | _, _ => [(0, 0)]

/-- Inner loop of Piece.getOccupiedPositions: positions contributed by one
mask row at absolute row pyy, scanning columns from local index x.
A mask cell counts when it is truthy, i.e. nonzero. -/
def rowPositions (px pyy : Int) : List Nat → Nat → List (Int × Int)
  | [], _ => []
  | v :: rest, x =>
    if v ≠ 0 then (px + x, pyy) :: rowPositions px pyy rest (x + 1)
    else rowPositions px pyy rest (x + 1)

/-- Outer loop of Piece.getOccupiedPositions, scanning mask rows from local
index y. -/
def shapePositions (px py : Int) : Shape → Nat → List (Int × Int)
  | [], _ => []
  | row :: rest, y =>
    rowPositions px (py + y) row 0 ++ shapePositions px py rest (y + 1)

/-- Piece.getOccupiedPositions: absolute (x, y) coordinates of the set mask
cells, computed as origin + local offset. -/
def Piece.getOccupiedPositions (p : Piece) : List (Int × Int) :=
  shapePositions p.x p.y p.shape 0

/-! ### Board (board.js) -/

/-- A grid cell: null or an occupying color. -/
abbrev Cell := Option String

abbrev GridRow := List Cell

abbrev Grid := List GridRow

/-- State of the GameBoard class.  The grid always has height rows of
width cells each; row 0 is the top. -/
structure GameBoard where
  width : Nat
  height : Nat
  grid : Grid
  linesToFlash : List Nat
deriving DecidableEq

/-- An all-null row of the given width. -/
def emptyRow (w : Nat) : GridRow := List.replicate w none

/-- The GameBoard constructor (width 10, height 20 by default). -/
def GameBoard.create (w h : Nat) : GameBoard :=
  { width := w
    height := h
    grid := List.replicate h (emptyRow w)
    linesToFlash := [] }

/-- Read grid[y][x] (only used behind the guards 0 <= y < height,
0 <= x < width of the JS code). -/
def gridCell (g : Grid) (x y : Int) : Cell :=
  (g.getD y.toNat []).getD x.toNat none

/-- Write grid[y][x]. -/
def setCell (g : Grid) (x y : Int) (c : Cell) : Grid :=
  g.set y.toNat ((g.getD y.toNat []).set x.toNat c)

/-- GameBoard.canPlacePiece: every occupied cell of the piece, offset by
(offsetX, offsetY), must pass the two JS checks: the bounds check
(reject x < 0, x >= width or y >= height) and, for y >= 0, the collision
check against the grid. -/
def GameBoard.canPlacePiece (b : GameBoard) (p : Piece) (offsetX offsetY : Int) : Bool :=
  p.getOccupiedPositions.all fun pos =>
    let newX := pos.1 + offsetX
    let newY := pos.2 + offsetY
    if newX < 0 ∨ (b.width : Int) ≤ newX ∨ (b.height : Int) ≤ newY then false
    else if 0 ≤ newY ∧ (gridCell b.grid newX newY).isSome then false
    else true

/-- GameBoard.placePiece: write the piece's color into every occupied cell
that lies fully inside the visible grid; cells outside are silently
dropped. -/
def GameBoard.placePiece (b : GameBoard) (p : Piece) : GameBoard :=
  { b with
    grid := p.getOccupiedPositions.foldl
      (fun g pos =>
        if 0 ≤ pos.2 ∧ pos.2 < (b.height : Int) ∧ 0 ≤ pos.1 ∧ pos.1 < (b.width : Int) then
          setCell g pos.1 pos.2 (some p.color)
        else g)
      b.grid }

/-- A row is complete when every cell is occupied (grid[y].every). -/
def rowComplete (row : GridRow) : Bool :=
  row.all fun cell => cell.isSome

/-- The completed-lines scan of GameBoard.clearLines: the loop walks the rows
top to bottom (index y counting up from the accumulator argument) and pushes
the index of every complete row. -/
def completedLinesAux : Grid → Nat → List Nat
  | [], _ => []
  | row :: rest, y =>
    if rowComplete row then y :: completedLinesAux rest (y + 1)
    else completedLinesAux rest (y + 1)

/-- Indices of complete rows, in ascending order (the scan starts at 0). -/
def completedLines (g : Grid) : List Nat :=
  completedLinesAux g 0

/-- GameBoard.clearLines: find the complete rows; if none, return 0 and leave
the board untouched.  Otherwise record the indices as lines to flash, then
for each index (in ascending order) splice the row out and unshift a fresh
empty row at the top, and return the number of rows cleared. -/
def GameBoard.clearLines (b : GameBoard) : GameBoard × Nat :=
  let completed := completedLines b.grid
  if completed = [] then (b, 0)
  else
    let newGrid :=
      completed.foldl (fun g lineY => emptyRow b.width :: g.eraseIdx lineY) b.grid
    ({ b with grid := newGrid, linesToFlash := completed }, completed.length)

/-- GameBoard.clearFlashingLines. -/
def GameBoard.clearFlashingLines (b : GameBoard) : GameBoard :=
  { b with linesToFlash := [] }

/-- GameBoard.isGameOver: some cell of the top row is occupied. -/
def GameBoard.isGameOver (b : GameBoard) : Bool :=
  (b.grid.getD 0 []).any fun cell => cell.isSome

/-- Loop of GameBoard.getDropPosition, with explicit fuel.  The JS loop keeps
incrementing dropY while the piece can be placed at vertical offset
dropY - piece.y + 1; the fuel chosen in getDropPosition strictly exceeds the
number of iterations possible for any piece with at least one occupied cell,
so the fuel never runs out (proved below). -/
def dropLoop (b : GameBoard) (p : Piece) : Nat → Int → Int
  | 0, dropY => dropY
  | fuel + 1, dropY =>
    if b.canPlacePiece p 0 (dropY - p.y + 1) then dropLoop b p fuel (dropY + 1)
    else dropY

/-- GameBoard.getDropPosition: the absolute y the piece lands on when dropped
straight down from its current position. -/
def GameBoard.getDropPosition (b : GameBoard) (p : Piece) : Int :=
  dropLoop b p (b.height + p.y.natAbs + 1) p.y

/-- GameBoard.reset. -/
def GameBoard.reset (b : GameBoard) : GameBoard :=
  { b with grid := List.replicate b.height (emptyRow b.width), linesToFlash := [] }

/-! ### Game controller (tetris.js) -/

/-- Lock delay constant: ms before a resting piece locks. -/
def lockDelay : Rat := 500

/-- Line flash duration constant in ms. -/
def lineFlashDuration : Rat := 300

/-- Base score table indexed by number of lines cleared (0..4). -/
def baseScores : List Int := [0, 40, 100, 300, 1200]

/-- TetrisGame.getLevelDropInterval: classic frame table, max(1, 48-(level-1)*5)
frames at 60 fps, converted to milliseconds.  The JS method reads this.level;
here the level is passed explicitly. -/
def getLevelDropInterval (level : Nat) : Rat :=
  let frames : Int := max 1 (48 - ((level : Int) - 1) * 5)
  (frames : Rat) / 60 * 1000

/-- State of the TetrisGame controller relevant to the simulation core.
The renderer, the input handler and the UI/DOM fields are external
collaborators and are not part of the state; the queued random next piece
is supplied as an explicit argument to the operations that consume it. -/
structure TetrisGame where
  board : GameBoard
  currentPiece : Piece
  isRunning : Bool
  isGameOver : Bool
  score : Int
  lines : Nat
  level : Nat
  combo : Nat
  dropInterval : Rat
  isLocking : Bool
  lockTimer : Rat
  lineFlashTimer : Rat
deriving DecidableEq

/-- TetrisGame.resetLockTimer. -/
def TetrisGame.resetLockTimer (g : TetrisGame) : TetrisGame :=
  { g with isLocking := false, lockTimer := 0 }

/-- TetrisGame.handleLinesCleared: bump the lines and combo counters, add the
line score (base table times level, plus the combo bonus when the incremented
combo exceeds 1), then recompute the level and, if it increased, the drop
interval. -/
def TetrisGame.handleLinesCleared (g : TetrisGame) (linesCleared : Nat) : TetrisGame :=
  let lines := g.lines + linesCleared
  let combo := g.combo + 1
  let lineScore0 : Int := baseScores.getD linesCleared 0 * (g.level : Int)
  let lineScore : Int :=
    if combo > 1 then lineScore0 + 50 * (combo : Int) * (g.level : Int) else lineScore0
  let score := g.score + lineScore
  let newLevel := lines / 10 + 1
  if newLevel > g.level then
    { g with lines := lines, combo := combo, score := score, level := newLevel,
             dropInterval := getLevelDropInterval newLevel }
  else
    { g with lines := lines, combo := combo, score := score }

/-- TetrisGame.lockPiece, with the randomly generated replacement piece passed
in as next: place the current piece, clear lines, update the score state (or
reset the combo when nothing cleared), start the flash window on a clear,
reset the locking state, promote next to current, and flip to game over when
the top row is occupied or the fresh piece cannot be placed. -/
def TetrisGame.lockPiece (g : TetrisGame) (next : Piece) : TetrisGame :=
  let b1 := g.board.placePiece g.currentPiece
  let linesCleared := b1.clearLines.2
  let b2 := b1.clearLines.1
  let g1 := { g with board := b2 }
  let g2 :=
    if linesCleared > 0 then
      { g1.handleLinesCleared linesCleared with lineFlashTimer := lineFlashDuration }
    else
      { g1 with combo := 0 }
  let g3 := { g2.resetLockTimer with currentPiece := next }
  if g3.board.isGameOver || !(g3.board.canPlacePiece next 0 0) then
    { g3 with isGameOver := true, isRunning := false }
  else g3

/-- TetrisGame.hardDrop: teleport the current piece to the landing row
computed by getDropPosition, award 2 points per row descended, then lock
immediately. -/
def TetrisGame.hardDrop (g : TetrisGame) (next : Piece) : TetrisGame :=
  if g.isGameOver then g
  else
    let dropDistance := g.board.getDropPosition g.currentPiece - g.currentPiece.y
    let g1 :=
      { g with
        currentPiece := { g.currentPiece with y := g.board.getDropPosition g.currentPiece }
        score := g.score + dropDistance * 2 }
    g1.lockPiece next

/-- TetrisGame.rotatePiece: build a rotated copy; commit it if it fits in
place, otherwise probe the SRS kick offsets for the (from, to) transition in
order and commit (with the positional nudge) on the first that fits; reject
the rotation leaving the piece unchanged when none fit.  Any committed
rotation resets the lock countdown. -/
def TetrisGame.rotatePiece (g : TetrisGame) : TetrisGame :=
  if g.isGameOver then g
  else
    let piece := g.currentPiece.rotate
    if g.board.canPlacePiece piece 0 0 then
      { g.resetLockTimer with currentPiece := piece }
    else
      match (piece.getWallKickOffsets g.currentPiece.rotation piece.rotation).find?
          (fun o => g.board.canPlacePiece piece o.1 o.2) with
      | some o =>
        { g.resetLockTimer with
          currentPiece := { piece with x := piece.x + o.1, y := piece.y + o.2 } }
      | none => g

/-! ### Concrete fixtures used by witnesses and counterexamples -/

/-- The standard empty 10x20 board. -/
def ebBoard : GameBoard := GameBoard.create 10 20

/-- A fully occupied row. -/
def fullRowCyan : GridRow := List.replicate 10 (some "#00ffff")

/-- A 10x20 board whose bottom row (index 19) is the only complete row. -/
def boardRow19 : GameBoard :=
  { GameBoard.create 10 20 with grid := List.replicate 19 (emptyRow 10) ++ [fullRowCyan] }

/-- An empty 10x20 board carrying a stale flash record from an earlier clear. -/
def boardStale : GameBoard :=
  { GameBoard.create 10 20 with linesToFlash := [19] }

/-- An O piece hovering at y = 5. -/
def pieceO5 : Piece := { Piece.create PieceType.O with y := 5 }

/-- A T piece that has been rotated once (rotation state 1). -/
def pieceT1 : Piece := (Piece.create PieceType.T).rotate

/-- A fresh controller state over the empty board with a T piece.  The drop
interval holds the level-1 value 48/60*1000 = 800 ms as a literal. -/
def baseGame : TetrisGame :=
  { board := ebBoard
    currentPiece := Piece.create PieceType.T
    isRunning := true
    isGameOver := false
    score := 0
    lines := 0
    level := 1
    combo := 0
    dropInterval := 800
    isLocking := false
    lockTimer := 0
    lineFlashTimer := 0 }

/-- A board whose bottom row has its six leftmost cells occupied. -/
def boardSix : GameBoard :=
  { GameBoard.create 10 20 with
    grid := List.replicate 19 (emptyRow 10)
             ++ [List.replicate 6 (some "#00ff00") ++ List.replicate 4 none] }

/-- An I piece whose occupied mask row sits on grid row 19, columns 6..9. -/
def pieceI18 : Piece := { Piece.create PieceType.I with x := 6, y := 18 }

/-- A controller state one piece away from a single-line clear. -/
def lockGame : TetrisGame :=
  { baseGame with board := boardSix, currentPiece := pieceI18 }

/-! ### Theorems -/

/-- Any list of length four is literally a four-element list. -/
theorem length_four_cases {α : Type} (l : List α) (h : l.length = 4) :
    ∃ a b c d, l = [a, b, c, d] := by
  match l, h with
  | [a, b, c, d], _ => exact ⟨a, b, c, d, rfl⟩

/-- C2: the code does NOT leave the O mask unchanged under rotateClockwise.
Rotating the canonical O spawn mask moves the 2x2 block from rows 0-1,
columns 1-2 to rows 1-2, columns 2-3, so the rotated mask differs from the
original (the wall-kick table does return the single (0,0) offset for O,
but the mask-invariance part of the claim fails on the code). -/
theorem rotate_O_mask_not_fixed :
    rotateShape (PIECES.shape PieceType.O)
      = [[0, 0, 0, 0], [0, 0, 1, 1], [0, 0, 1, 1], [0, 0, 0, 0]] ∧
    rotateShape (PIECES.shape PieceType.O) ≠ PIECES.shape PieceType.O ∧
    ((Piece.create PieceType.O).rotate).shape ≠ (Piece.create PieceType.O).shape ∧
    (Piece.create PieceType.O).getWallKickOffsets 0 1 = [(0, 0)] := by
  decide

/-- C8 counterexample: a T piece already in rotation state 1 (a reachable
piece state with a 4x4 mask) does not come back to rotation state 0 after
four clockwise rotations; it comes back to rotation state 1. -/
theorem rotate_four_not_rotation_zero :
    (pieceT1.rotate.rotate.rotate.rotate).rotation = 1 ∧
    ¬ (pieceT1.rotate.rotate.rotate.rotate).rotation = 0 := by
  decide

/-- One clockwise rotation of an explicit 4x4 mask: entry (r, c) of the
result is entry (3 - c, r) of the input. -/
theorem rotateShape_four_by_four (a0 a1 a2 a3 b0 b1 b2 b3 c0 c1 c2 c3 d0 d1 d2 d3 : Nat) :
    rotateShape [[a0, a1, a2, a3], [b0, b1, b2, b3], [c0, c1, c2, c3], [d0, d1, d2, d3]]
      = [[d0, c0, b0, a0], [d1, c1, b1, a1], [d2, c2, b2, a2], [d3, c3, b3, a3]] := rfl

/-- C8 (amended): for every piece with a 4x4 mask and rotation state in
[0,3], applying rotateClockwise four times restores the original mask and
the original rotation state (hence rotation state 0 exactly when the piece
started at rotation state 0). -/
theorem rotate_four_roundtrip (p : Piece) (h4 : p.shape.length = 4)
    (hrow : ∀ row ∈ p.shape, row.length = 4) (hr : p.rotation < 4) :
    (p.rotate.rotate.rotate.rotate).shape = p.shape ∧
    (p.rotate.rotate.rotate.rotate).rotation = p.rotation := by
  obtain ⟨t, sh, col, px, py, r⟩ := p
  simp only at h4 hrow hr
  obtain ⟨r0, r1, r2, r3, rfl⟩ := length_four_cases sh h4
  obtain ⟨a0, a1, a2, a3, h0⟩ := length_four_cases r0 (hrow r0 (by simp))
  obtain ⟨b0, b1, b2, b3, h1⟩ := length_four_cases r1 (hrow r1 (by simp))
  obtain ⟨c0, c1, c2, c3, h2⟩ := length_four_cases r2 (hrow r2 (by simp))
  obtain ⟨d0, d1, d2, d3, h3⟩ := length_four_cases r3 (hrow r3 (by simp))
  subst h0 h1 h2 h3
  constructor
  · show rotateShape (rotateShape (rotateShape (rotateShape _))) = _
    rw [rotateShape_four_by_four, rotateShape_four_by_four, rotateShape_four_by_four,
      rotateShape_four_by_four]
  · show ((((r + 1) % 4 + 1) % 4 + 1) % 4 + 1) % 4 = r
    omega

/-- Witness for rotate_four_roundtrip at the freshly spawned T piece. -/
theorem rotate_four_roundtrip_witness :
    ((Piece.create PieceType.T).rotate.rotate.rotate.rotate).shape
        = (Piece.create PieceType.T).shape ∧
    ((Piece.create PieceType.T).rotate.rotate.rotate.rotate).rotation
        = (Piece.create PieceType.T).rotation :=
  rotate_four_roundtrip (Piece.create PieceType.T) (by decide) (by decide) (by decide)

/-- Erasing at the index right after a prefix removes the element there. -/
theorem eraseIdx_append_cons {α : Type} (l1 : List α) (a : α) (l2 : List α) :
    (l1 ++ a :: l2).eraseIdx l1.length = l1 ++ l2 := by
  rw [List.eraseIdx_append_of_length_le (le_refl _)]
  simp

/-- Membership in the completed-lines scan started at offset n. -/
theorem mem_completedLinesAux :
    ∀ (g : Grid) (n y : Nat),
      y ∈ completedLinesAux g n
        ↔ ∃ j, j < g.length ∧ y = n + j ∧ rowComplete (g.getD j []) = true := by
  intro g
  induction g with
  | nil => intro n y; simp [completedLinesAux]
  | cons row rest ih =>
    intro n y
    cases hc : rowComplete row with
    | true =>
      rw [show completedLinesAux (row :: rest) n = n :: completedLinesAux rest (n + 1) from
        by simp [completedLinesAux, hc]]
      simp only [List.mem_cons, ih]
      constructor
      · rintro (rfl | ⟨j, hj, rfl, hcj⟩)
        · exact ⟨0, by simp, by omega, by simp [hc]⟩
        · refine ⟨j + 1, by simp; omega, by omega, by simpa using hcj⟩
      · rintro ⟨j, hj, rfl, hcj⟩
        cases j with
        | zero => left; omega
        | succ j =>
          right
          refine ⟨j, by simp at hj; omega, by omega, by simpa using hcj⟩
    | false =>
      rw [show completedLinesAux (row :: rest) n = completedLinesAux rest (n + 1) from
        by simp [completedLinesAux, hc]]
      rw [ih]
      constructor
      · rintro ⟨j, hj, rfl, hcj⟩
        refine ⟨j + 1, by simp; omega, by omega, by simpa using hcj⟩
      · rintro ⟨j, hj, rfl, hcj⟩
        cases j with
        | zero => simp [hc] at hcj
        | succ j =>
          refine ⟨j, by simp at hj; omega, by omega, by simpa using hcj⟩

/-- The completed-lines scan produces strictly increasing indices. -/
theorem pairwise_completedLinesAux :
    ∀ (g : Grid) (n : Nat), List.Pairwise (fun a b => a < b) (completedLinesAux g n) := by
  intro g
  induction g with
  | nil => intro n; simp [completedLinesAux]
  | cons row rest ih =>
    intro n
    cases hc : rowComplete row with
    | false => simpa [completedLinesAux, hc] using ih (n + 1)
    | true =>
      rw [show completedLinesAux (row :: rest) n = n :: completedLinesAux rest (n + 1) from
        by simp [completedLinesAux, hc]]
      refine List.Pairwise.cons ?_ (ih (n + 1))
      intro b hb
      obtain ⟨j, hj, rfl, _⟩ := (mem_completedLinesAux rest (n + 1) b).mp hb
      omega

/-- Invariant of the splice-and-unshift loop of clearLines: folding it over
the ascending complete-row indices of the tail t (which sit at offset
pfx.length in the whole grid pfx ++ t) prepends one empty row per complete
row and removes exactly the complete rows of t. -/
theorem clear_foldl (w : Nat) :
    ∀ (t pfx : Grid),
      (completedLinesAux t pfx.length).foldl
          (fun g lineY => emptyRow w :: g.eraseIdx lineY) (pfx ++ t)
        = List.replicate (completedLinesAux t pfx.length).length (emptyRow w)
            ++ pfx ++ t.filter (fun row => !(rowComplete row)) := by
  intro t
  induction t with
  | nil => intro pfx; simp [completedLinesAux]
  | cons row rest ih =>
    intro pfx
    cases hc : rowComplete row with
    | true =>
      rw [show completedLinesAux (row :: rest) pfx.length
            = pfx.length :: completedLinesAux rest (pfx.length + 1) from
          by simp [completedLinesAux, hc]]
      simp only [List.foldl_cons]
      have h2 : emptyRow w :: (pfx ++ row :: rest).eraseIdx pfx.length
          = (emptyRow w :: pfx) ++ rest := by
        rw [eraseIdx_append_cons]; rfl
      have h3 : pfx.length + 1 = (emptyRow w :: pfx).length := by simp
      rw [h2, h3, ih (emptyRow w :: pfx)]
      simp [hc, List.replicate_succ', List.append_assoc]
    | false =>
      rw [show completedLinesAux (row :: rest) pfx.length
            = completedLinesAux rest (pfx.length + 1) from
          by simp [completedLinesAux, hc]]
      have h3 : pfx.length + 1 = (pfx ++ [row]).length := by simp
      have h4 : pfx ++ row :: rest = (pfx ++ [row]) ++ rest := by simp
      rw [h3, h4, ih (pfx ++ [row])]
      simp [hc, List.append_assoc]

/-- C1: clearLines removes exactly the rows in which every cell is occupied,
collected in ascending index order; it inserts one empty row at index 0 per
removed row while preserving the relative order and content of all untouched
rows, records the pre-removal indices as the flash record, and returns the
count of removed rows.  With zero complete rows it returns 0 and leaves the
board unchanged; with exactly one complete row y it removes exactly that row,
returns 1, and shifts the rows above y down by one behind a new empty top
row. -/
theorem clearLines_spec (b : GameBoard) :
    (b.clearLines.2 = (completedLines b.grid).length) ∧
    (∀ y : Nat, y ∈ completedLines b.grid ↔
        y < b.grid.length ∧ rowComplete (b.grid.getD y []) = true) ∧
    List.Pairwise (fun a c => a < c) (completedLines b.grid) ∧
    (completedLines b.grid = [] → b.clearLines = (b, 0)) ∧
    (completedLines b.grid ≠ [] →
        b.clearLines.1.grid
            = List.replicate (completedLines b.grid).length (emptyRow b.width)
                ++ b.grid.filter (fun row => !(rowComplete row)) ∧
        b.clearLines.1.linesToFlash = completedLines b.grid ∧
        b.clearLines.1.width = b.width ∧ b.clearLines.1.height = b.height) ∧
    (∀ y : Nat, completedLines b.grid = [y] →
        b.clearLines.1.grid = emptyRow b.width :: b.grid.eraseIdx y ∧
        b.clearLines.2 = 1) := by
  have hfold := clear_foldl b.width b.grid []
  simp only [List.length_nil, List.nil_append, List.append_nil] at hfold
  refine ⟨?_, ?_, ?_, ?_, ?_, ?_⟩
  · by_cases h : completedLines b.grid = [] <;> simp [GameBoard.clearLines, h]
  · intro y
    rw [show completedLines b.grid = completedLinesAux b.grid 0 from rfl,
      mem_completedLinesAux]
    constructor
    · rintro ⟨j, hj, rfl, hcj⟩
      exact ⟨by omega, by simpa using hcj⟩
    · rintro ⟨h1, h2⟩
      exact ⟨y, h1, by omega, h2⟩
  · exact pairwise_completedLinesAux b.grid 0
  · intro h
    simp [GameBoard.clearLines, h]
  · intro h
    refine ⟨?_, ?_, ?_, ?_⟩
    · simp only [GameBoard.clearLines, if_neg h]
      simp [show completedLines b.grid = completedLinesAux b.grid 0 from rfl, hfold]
    · simp [GameBoard.clearLines, if_neg h]
    · simp [GameBoard.clearLines, if_neg h]
    · simp [GameBoard.clearLines, if_neg h]
  · intro y h
    have hne : completedLines b.grid ≠ [] := by simp [h]
    constructor
    · simp only [GameBoard.clearLines, if_neg hne, h]
      simp [List.foldl_cons]
    · simp [GameBoard.clearLines, if_neg hne, h]

/-- Witness for clearLines_spec: on the board whose only complete row is the
bottom row 19, clearLines returns 1 and replaces the grid by a fresh empty
top row followed by the 19 untouched rows. -/
theorem clearLines_spec_witness :
    boardRow19.clearLines.2 = 1 ∧
    boardRow19.clearLines.1.grid = emptyRow 10 :: boardRow19.grid.eraseIdx 19 := by
  have h := (clearLines_spec boardRow19).2.2.2.2.2 19 (by decide)
  exact ⟨h.2, h.1⟩

/-- C10: when clearLines finds zero complete rows it returns early, leaving
the linesToFlash record exactly as it was (a stale record persists across
non-clearing calls); the record is emptied by clearFlashingLines and by
reset. -/
theorem linesToFlash_persistence (b : GameBoard) (h : completedLines b.grid = []) :
    b.clearLines.1.linesToFlash = b.linesToFlash ∧
    b.clearLines = (b, 0) ∧
    b.clearFlashingLines.linesToFlash = [] ∧
    b.reset.linesToFlash = [] := by
  refine ⟨?_, ?_, rfl, rfl⟩ <;> simp [GameBoard.clearLines, h]

/-- Witness for linesToFlash_persistence: an empty board still carrying the
stale flash record [19] keeps it through a non-clearing clearLines call. -/
theorem linesToFlash_persistence_witness :
    boardStale.clearLines.1.linesToFlash = [19] ∧ boardStale.linesToFlash = [19] := by
  have h := linesToFlash_persistence boardStale (by decide)
  rw [h.1]
  exact ⟨rfl, rfl⟩

/-- Pointwise reading of the two canPlacePiece checks at an already offset
cell (nx, ny): inside horizontal bounds, above-or-inside the bottom bound,
and no collision whenever the cell is in visible rows. -/
theorem canPlace_check_iff (b : GameBoard) (nx ny : Int) :
    (if nx < 0 ∨ (b.width : Int) ≤ nx ∨ (b.height : Int) ≤ ny then false
     else if 0 ≤ ny ∧ (gridCell b.grid nx ny).isSome then false
     else true) = true
      ↔ (0 ≤ nx ∧ nx < (b.width : Int) ∧ ny < (b.height : Int) ∧
          (0 ≤ ny → gridCell b.grid nx ny = none)) := by
  constructor
  · intro ht
    split_ifs at ht with h1 h2
    push_neg at h1
    refine ⟨by omega, by omega, by omega, fun hy => ?_⟩
    rcases hcell : gridCell b.grid nx ny with _ | c
    · rfl
    · exact absurd ⟨hy, by simp [hcell]⟩ h2
  · intro hr
    split_ifs with h1 h2
    · rcases h1 with h | h | h <;> [exact absurd hr.1 (by omega);
        exact absurd hr.2.1 (by omega); exact absurd hr.2.2.1 (by omega)]
    · rw [hr.2.2.2 h2.1] at h2
      simp at h2
    · rfl

/-- C4: canPlacePiece succeeds if and only if every occupied cell of the
piece, offset by (dx, dy), has x within [0, width), has y below height
(cells with y < 0 permitted), and, whenever y >= 0, lands on an empty grid
cell. -/
theorem canPlacePiece_iff (b : GameBoard) (p : Piece) (dx dy : Int) :
    b.canPlacePiece p dx dy = true ↔
      ∀ pos ∈ p.getOccupiedPositions,
        0 ≤ pos.1 + dx ∧ pos.1 + dx < (b.width : Int) ∧ pos.2 + dy < (b.height : Int) ∧
        (0 ≤ pos.2 + dy → gridCell b.grid (pos.1 + dx) (pos.2 + dy) = none) := by
  rw [GameBoard.canPlacePiece, List.all_eq_true]
  constructor
  · intro h pos hp
    exact (canPlace_check_iff b (pos.1 + dx) (pos.2 + dy)).mp (by simpa using h pos hp)
  · intro h pos hp
    simpa using (canPlace_check_iff b (pos.1 + dx) (pos.2 + dy)).mpr (h pos hp)

/-- Witness for canPlacePiece_iff: on the empty board a freshly spawned T
piece can be placed at zero offset. -/
theorem canPlacePiece_iff_witness :
    ebBoard.canPlacePiece (Piece.create PieceType.T) 0 0 = true :=
  (canPlacePiece_iff ebBoard (Piece.create PieceType.T) 0 0).mpr (by decide)

/-- Every position produced from one mask row lies on that row. -/
theorem rowPositions_snd :
    ∀ (row : List Nat) (px pyy : Int) (k : Nat) (pos : Int × Int),
      pos ∈ rowPositions px pyy row k → pos.2 = pyy := by
  intro row
  induction row with
  | nil => intro px pyy k pos h; simp [rowPositions] at h
  | cons v rest ih =>
    intro px pyy k pos h
    rw [rowPositions] at h
    split_ifs at h with hv
    · rcases List.mem_cons.mp h with rfl | h2
      · rfl
      · exact ih px pyy (k + 1) pos h2
    · exact ih px pyy (k + 1) pos h

/-- Every occupied position sits on or below the mask row it came from. -/
theorem shapePositions_snd_ge :
    ∀ (s : Shape) (px py : Int) (k : Nat) (pos : Int × Int),
      pos ∈ shapePositions px py s k → py + (k : Int) ≤ pos.2 := by
  intro s
  induction s with
  | nil => intro px py k pos h; simp [shapePositions] at h
  | cons row rest ih =>
    intro px py k pos h
    rw [shapePositions] at h
    rcases List.mem_append.mp h with h2 | h2
    · rw [rowPositions_snd row px (py + (k : Int)) 0 pos h2]
    · have := ih px py (k + 1) pos h2
      push_cast at this ⊢
      omega

/-- An occupied cell never lies above the piece origin. -/
theorem occupied_snd_ge (p : Piece) (pos : Int × Int)
    (h : pos ∈ p.getOccupiedPositions) : p.y ≤ pos.2 := by
  have := shapePositions_snd_ge p.shape p.x p.y 0 pos h
  simpa using this

/-- For a piece with at least one occupied cell, placement at a vertical
offset past height + |y| always fails the bounds check. -/
theorem canPlace_fail_exists (b : GameBoard) (p : Piece)
    (hne : p.getOccupiedPositions ≠ []) :
    b.canPlacePiece p 0 (((b.height + p.y.natAbs : Nat) : Int) + 1) = false := by
  obtain ⟨pos, hpos⟩ := List.exists_mem_of_ne_nil _ hne
  rw [GameBoard.canPlacePiece, List.all_eq_false]
  refine ⟨pos, hpos, ?_⟩
  have hy := occupied_snd_ge p pos hpos
  simp only [Bool.not_eq_true]
  have hcond : pos.1 + 0 < 0 ∨ (b.width : Int) ≤ pos.1 + 0 ∨
      (b.height : Int) ≤ pos.2 + (((b.height + p.y.natAbs : Nat) : Int) + 1) := by
    right; right
    rw [Nat.cast_add]
    omega
  rw [if_pos hcond]

/-- Loop invariant of getDropPosition: if placement first fails at vertical
offset D + 1 and succeeds at every offset up to D, then the probing loop,
entered with dropY = piece.y + j for any j at most D and enough fuel left,
terminates at piece.y + D. -/
theorem dropLoop_spec (b : GameBoard) (p : Piece) (D : Nat)
    (hD : b.canPlacePiece p 0 ((D : Int) + 1) = false)
    (hlt : ∀ j : Nat, j < D → b.canPlacePiece p 0 ((j : Int) + 1) = true) :
    ∀ (fuel j : Nat), j ≤ D → D - j < fuel →
      dropLoop b p fuel (p.y + (j : Int)) = p.y + (D : Int) := by
  intro fuel
  induction fuel with
  | zero =>
    intro j hj hf
    omega
  | succ f ih =>
    intro j hj hf
    have harith : p.y + (j : Int) - p.y + 1 = (j : Int) + 1 := by ring
    rcases Nat.lt_or_ge j D with hlt2 | hge
    · show (if b.canPlacePiece p 0 (p.y + (j : Int) - p.y + 1) then
          dropLoop b p f (p.y + (j : Int) + 1) else p.y + (j : Int)) = p.y + (D : Int)
      rw [harith, hlt j hlt2, if_pos rfl]
      have hcast : p.y + (j : Int) + 1 = p.y + ((j + 1 : Nat) : Int) := by
        push_cast
        ring
      rw [hcast]
      exact ih (j + 1) (by omega) (by omega)
    · have hjD : j = D := by omega
      subst hjD
      show (if b.canPlacePiece p 0 (p.y + (j : Int) - p.y + 1) then
          dropLoop b p f (p.y + (j : Int) + 1) else p.y + (j : Int)) = p.y + (j : Int)
      rw [harith, hD]
      simp

/-- C3 counterexample: for the O piece hovering at y = 5 over the empty
board, the maximal downward offset d with canPlace holding at every
intermediate step 1..d is 13 (offset 14 fails), yet getDropPosition returns
18 = 5 + 13, the absolute landing row, not the relative offset 13. -/
theorem getDropPosition_ctrex :
    ebBoard.getDropPosition pieceO5 = 18 ∧
    (∀ k : Nat, k < 14 → 1 ≤ k → ebBoard.canPlacePiece pieceO5 0 (k : Int) = true) ∧
    ebBoard.canPlacePiece pieceO5 0 14 = false ∧
    ebBoard.getDropPosition pieceO5 ≠ 13 := by
  decide

/-- C3 (amended): for every board and every piece with at least one occupied
cell, getDropPosition returns the absolute landing row piece.y + d, where d
is the maximal downward offset such that canPlace holds at every
intermediate step (canPlace succeeds at each offset 1..d and fails at
d + 1). -/
theorem getDropPosition_spec (b : GameBoard) (p : Piece)
    (hne : p.getOccupiedPositions ≠ []) :
    ∃ d : Nat,
      b.getDropPosition p = p.y + (d : Int) ∧
      (∀ k : Nat, 1 ≤ k → k ≤ d → b.canPlacePiece p 0 (k : Int) = true) ∧
      b.canPlacePiece p 0 ((d : Int) + 1) = false := by
  have hex : ∃ k : Nat, b.canPlacePiece p 0 ((k : Int) + 1) = false :=
    ⟨b.height + p.y.natAbs, canPlace_fail_exists b p hne⟩
  have hDspec : b.canPlacePiece p 0 ((Nat.find hex : Int) + 1) = false := Nat.find_spec hex
  have hDmin : ∀ j : Nat, j < Nat.find hex → b.canPlacePiece p 0 ((j : Int) + 1) = true := by
    intro j hj
    have h2 := Nat.find_min hex hj
    revert h2
    cases hcp : b.canPlacePiece p 0 ((j : Int) + 1) <;> simp
  have hDle : Nat.find hex ≤ b.height + p.y.natAbs :=
    Nat.find_min' hex (canPlace_fail_exists b p hne)
  refine ⟨Nat.find hex, ?_, ?_, hDspec⟩
  · have hrun := dropLoop_spec b p (Nat.find hex) hDspec hDmin
      (b.height + p.y.natAbs + 1) 0 (by omega) (by omega)
    simpa [GameBoard.getDropPosition] using hrun
  · intro k h1 h2
    have h3 := hDmin (k - 1) (by omega)
    have hcast : ((k - 1 : Nat) : Int) + 1 = (k : Int) := by omega
    rwa [hcast] at h3

/-- Witness for getDropPosition_spec at the O piece hovering at y = 5 over
the empty board. -/
theorem getDropPosition_spec_witness :
    ∃ d : Nat,
      ebBoard.getDropPosition pieceO5 = pieceO5.y + (d : Int) ∧
      (∀ k : Nat, 1 ≤ k → k ≤ d → ebBoard.canPlacePiece pieceO5 0 (k : Int) = true) ∧
      ebBoard.canPlacePiece pieceO5 0 ((d : Int) + 1) = false :=
  getDropPosition_spec ebBoard pieceO5 (by decide)

/-- C5: for a T piece in rotation state 0, the controller's rotation uses
the kick list [(-1,0),(-1,1),(0,-2),(-1,-2)] for the 0 to 1 transition, and
the committed result is: the rotated piece in place if it fits, otherwise
the rotated piece nudged by the first kick offset (probed in exactly that
order) at which canPlacePiece succeeds, and the state is unchanged when
nothing fits; every committed rotation resets the lock countdown. -/
theorem rotatePiece_T_0_1 (g : TetrisGame) (hgo : g.isGameOver = false)
    (ht : g.currentPiece.type = PieceType.T) (hr : g.currentPiece.rotation = 0) :
    (g.currentPiece.rotate).getWallKickOffsets g.currentPiece.rotation
        (g.currentPiece.rotate).rotation = [(-1, 0), (-1, 1), (0, -2), (-1, -2)] ∧
    g.rotatePiece =
      (if g.board.canPlacePiece g.currentPiece.rotate 0 0 then
        { g.resetLockTimer with currentPiece := g.currentPiece.rotate }
      else if g.board.canPlacePiece g.currentPiece.rotate (-1) 0 then
        { g.resetLockTimer with currentPiece :=
            { g.currentPiece.rotate with
                x := g.currentPiece.rotate.x + -1,
                y := g.currentPiece.rotate.y + 0 } }
      else if g.board.canPlacePiece g.currentPiece.rotate (-1) 1 then
        { g.resetLockTimer with currentPiece :=
            { g.currentPiece.rotate with
                x := g.currentPiece.rotate.x + -1,
                y := g.currentPiece.rotate.y + 1 } }
      else if g.board.canPlacePiece g.currentPiece.rotate 0 (-2) then
        { g.resetLockTimer with currentPiece :=
            { g.currentPiece.rotate with
                x := g.currentPiece.rotate.x + 0,
                y := g.currentPiece.rotate.y + -2 } }
      else if g.board.canPlacePiece g.currentPiece.rotate (-1) (-2) then
        { g.resetLockTimer with currentPiece :=
            { g.currentPiece.rotate with
                x := g.currentPiece.rotate.x + -1,
                y := g.currentPiece.rotate.y + -2 } }
      else g) := by
  have htype : (g.currentPiece.rotate).type = PieceType.T := ht
  have hrot : (g.currentPiece.rotate).rotation = 1 := by
    show (g.currentPiece.rotation + 1) % 4 = 1
    rw [hr]
  have hkick0 : ∀ q : Piece, q.type = PieceType.T →
      q.getWallKickOffsets 0 1 = [(-1, 0), (-1, 1), (0, -2), (-1, -2)] := by
    intro q hq
    obtain ⟨qt, qs, qc, qx, qy, qr⟩ := q
    simp only at hq
    subst hq
    rfl
  have hkick : (g.currentPiece.rotate).getWallKickOffsets g.currentPiece.rotation
      (g.currentPiece.rotate).rotation = [(-1, 0), (-1, 1), (0, -2), (-1, -2)] := by
    rw [hr, hrot]
    exact hkick0 _ htype
  refine ⟨hkick, ?_⟩
  rw [TetrisGame.rotatePiece]
  rw [hgo]
  simp only [Bool.false_eq_true, if_false]
  by_cases h0 : g.board.canPlacePiece g.currentPiece.rotate 0 0
  · simp [h0]
  · simp only [h0, if_false, Bool.false_eq_true]
    rw [hkick]
    by_cases h1 : g.board.canPlacePiece g.currentPiece.rotate (-1) 0
    · simp [List.find?, h1]
    · by_cases h2 : g.board.canPlacePiece g.currentPiece.rotate (-1) 1
      · simp [List.find?, h1, h2]
      · by_cases h3 : g.board.canPlacePiece g.currentPiece.rotate 0 (-2)
        · simp [List.find?, h1, h2, h3]
        · by_cases h4 : g.board.canPlacePiece g.currentPiece.rotate (-1) (-2)
          · simp [List.find?, h1, h2, h3, h4]
          · simp [List.find?, h1, h2, h3, h4]

/-- Field-level reading of handleLinesCleared: the lines counter grows by
the cleared count, the combo counter increments, and the score grows by the
base-table entry times the level, plus the 50 * combo * level bonus exactly
when the pre-clear combo was positive (i.e. the incremented combo exceeds
1). -/
theorem handleLinesCleared_fields (g : TetrisGame) (n : Nat) :
    (g.handleLinesCleared n).lines = g.lines + n ∧
    (g.handleLinesCleared n).combo = g.combo + 1 ∧
    (g.combo = 0 →
        (g.handleLinesCleared n).score = g.score + baseScores.getD n 0 * (g.level : Int)) ∧
    (0 < g.combo →
        (g.handleLinesCleared n).score
          = g.score + baseScores.getD n 0 * (g.level : Int)
              + 50 * ((g.combo : Int) + 1) * (g.level : Int)) := by
  simp only [TetrisGame.handleLinesCleared]
  split_ifs with h1 h2 h3 <;>
    refine ⟨by simp, by simp, fun hc => ?_, fun hc => ?_⟩ <;>
    first
      | (exfalso; omega)
      | (simp; ring)
      | simp

/-- lockPiece always leaves the locking sub-state cleared. -/
theorem lockPiece_resets_locking (g : TetrisGame) (next : Piece) :
    (g.lockPiece next).isLocking = false ∧ (g.lockPiece next).lockTimer = 0 := by
  simp only [TetrisGame.lockPiece, TetrisGame.resetLockTimer]
  split_ifs <;> simp

/-- C6: a lock that clears n in 1..4 lines adds base(n) * level to the
score (base = [0, 40, 100, 300, 1200]), plus 50 * (combo+1) * level when
the incremented combo exceeds 1, and bumps the lines and combo counters; a
lock that clears no lines resets the combo to 0 and adds nothing.  In
particular a single-line clear at level 1 with no running combo adds 40
points, and a 4-line clear at level 3 whose incremented combo is 2 adds
3900 points. -/
theorem lockPiece_scoring (g : TetrisGame) (next : Piece) :
    (1 ≤ (g.board.placePiece g.currentPiece).clearLines.2 →
      (g.board.placePiece g.currentPiece).clearLines.2 ≤ 4 →
        (g.lockPiece next).lines = g.lines + (g.board.placePiece g.currentPiece).clearLines.2 ∧
        (g.lockPiece next).combo = g.combo + 1 ∧
        (g.combo = 0 →
            (g.lockPiece next).score
              = g.score
                  + baseScores.getD (g.board.placePiece g.currentPiece).clearLines.2 0
                      * (g.level : Int)) ∧
        (0 < g.combo →
            (g.lockPiece next).score
              = g.score
                  + baseScores.getD (g.board.placePiece g.currentPiece).clearLines.2 0
                      * (g.level : Int)
                  + 50 * ((g.combo : Int) + 1) * (g.level : Int))) ∧
    ((g.board.placePiece g.currentPiece).clearLines.2 = 0 →
        (g.lockPiece next).combo = 0 ∧ (g.lockPiece next).score = g.score ∧
        (g.lockPiece next).lines = g.lines) ∧
    (∀ s : TetrisGame, s.level = 1 → s.combo = 0 →
        (s.handleLinesCleared 1).score = s.score + 40) ∧
    (∀ s : TetrisGame, s.level = 3 → s.combo = 1 →
        (s.handleLinesCleared 4).score = s.score + 3900) := by
  refine ⟨?_, ?_, ?_, ?_⟩
  · intro h1 h4
    obtain ⟨hL, hC, hS0, hS1⟩ :=
      handleLinesCleared_fields
        { g with board := (g.board.placePiece g.currentPiece).clearLines.1 }
        (g.board.placePiece g.currentPiece).clearLines.2
    simp only [TetrisGame.lockPiece, TetrisGame.resetLockTimer]
    rw [if_pos (by omega : (g.board.placePiece g.currentPiece).clearLines.2 > 0)]
    split_ifs with hend <;>
      exact ⟨by simpa using hL, by simpa using hC,
        fun hc => by simpa using hS0 hc, fun hc => by simpa using hS1 hc⟩
  · intro h0
    simp only [TetrisGame.lockPiece, TetrisGame.resetLockTimer]
    rw [if_neg (by omega : ¬ (g.board.placePiece g.currentPiece).clearLines.2 > 0)]
    split_ifs with hend <;> exact ⟨rfl, rfl, rfl⟩
  · intro s hl hc
    obtain ⟨hL2, hC2, hS0, hS1⟩ := handleLinesCleared_fields s 1
    rw [hS0 hc, hl]
    norm_num [baseScores]
  · intro s hl hc
    obtain ⟨hL2, hC2, hS0, hS1⟩ := handleLinesCleared_fields s 4
    rw [hS1 (by omega), hl, hc]
    norm_num [baseScores]
    omega

/-- lockPiece does not read the lock-delay countdown state: its result is
independent of the incoming lockTimer and isLocking values. -/
theorem lockPiece_ignores_locking (g : TetrisGame) (next : Piece) (t : Rat) (lk : Bool) :
    TetrisGame.lockPiece { g with lockTimer := t, isLocking := lk } next = g.lockPiece next := by
  simp only [TetrisGame.lockPiece, TetrisGame.resetLockTimer, TetrisGame.handleLinesCleared]
  split_ifs <;> rfl

/-- C7: hard drop teleports the current piece to the landing row computed
by getDropPosition, adds exactly 2 * (landingRow - startRow) points, and
runs the lock sequence in the same step: the result is the lock of the
teleported-and-scored state, the locking countdown state ends cleared, and
the outcome never depends on the pending lock-delay countdown (no 500 ms
wait). -/
theorem hardDrop_spec (g : TetrisGame) (next : Piece) (hgo : g.isGameOver = false) :
    g.hardDrop next =
      TetrisGame.lockPiece
        { g with
          currentPiece := { g.currentPiece with y := g.board.getDropPosition g.currentPiece }
          score := g.score
              + (g.board.getDropPosition g.currentPiece - g.currentPiece.y) * 2 }
        next ∧
    (g.hardDrop next).isLocking = false ∧
    (g.hardDrop next).lockTimer = 0 ∧
    (∀ (t : Rat) (lk : Bool),
        TetrisGame.hardDrop { g with lockTimer := t, isLocking := lk } next
          = g.hardDrop next) := by
  have h1 : g.hardDrop next =
      TetrisGame.lockPiece
        { g with
          currentPiece := { g.currentPiece with y := g.board.getDropPosition g.currentPiece }
          score := g.score
              + (g.board.getDropPosition g.currentPiece - g.currentPiece.y) * 2 }
        next := by
    simp only [TetrisGame.hardDrop, hgo]
    simp
  refine ⟨h1, ?_, ?_, ?_⟩
  · rw [h1]
    exact (lockPiece_resets_locking _ _).1
  · rw [h1]
    exact (lockPiece_resets_locking _ _).2
  · intro t lk
    rw [h1]
    have h2 : TetrisGame.hardDrop { g with lockTimer := t, isLocking := lk } next
        = TetrisGame.lockPiece
            { g with
              lockTimer := t
              isLocking := lk
              currentPiece :=
                { g.currentPiece with y := g.board.getDropPosition g.currentPiece }
              score := g.score
                  + (g.board.getDropPosition g.currentPiece - g.currentPiece.y) * 2 }
            next := by
      simp only [TetrisGame.hardDrop, hgo]
      simp
    rw [h2]
    exact lockPiece_ignores_locking
      { g with
        currentPiece := { g.currentPiece with y := g.board.getDropPosition g.currentPiece }
        score := g.score
            + (g.board.getDropPosition g.currentPiece - g.currentPiece.y) * 2 }
      next t lk

/-- C9: starting from a state satisfying the session invariant
level = floor(lines/10) + 1, a clear of n lines restores the invariant for
the new total, never decreases the level, and recomputes the drop interval
by the max(1, 48 - (level-1)*5) frames formula whenever the level
increases; in particular when the total reaches 10 the level becomes 2 and
the interval becomes 43/60*1000 = 2150/3 ms (about 716.7 ms). -/
theorem handleLinesCleared_leveling (g : TetrisGame) (n : Nat)
    (hInv : g.level = g.lines / 10 + 1) :
    (g.handleLinesCleared n).level = (g.lines + n) / 10 + 1 ∧
    g.level ≤ (g.handleLinesCleared n).level ∧
    (g.level < (g.handleLinesCleared n).level →
        (g.handleLinesCleared n).dropInterval
          = getLevelDropInterval ((g.lines + n) / 10 + 1)) ∧
    (1 ≤ n → g.lines + n = 10 →
        (g.handleLinesCleared n).level = 2 ∧
        (g.handleLinesCleared n).dropInterval = (43 : Rat) / 60 * 1000 ∧
        (g.handleLinesCleared n).dropInterval = 2150 / 3) := by
  have hmono : g.lines / 10 ≤ (g.lines + n) / 10 :=
    Nat.div_le_div_right (Nat.le_add_right _ _)
  simp only [TetrisGame.handleLinesCleared]
  split_ifs with h1 h2 h3
  · refine ⟨by simp, by simp; omega, fun hlt => by simp, fun hn h10 => ?_⟩
    refine ⟨by simp; omega, ?_, ?_⟩
    · show getLevelDropInterval ((g.lines + n) / 10 + 1) = (43 : Rat) / 60 * 1000
      rw [h10]
      norm_num [getLevelDropInterval]
    · show getLevelDropInterval ((g.lines + n) / 10 + 1) = 2150 / 3
      rw [h10]
      norm_num [getLevelDropInterval]
  · refine ⟨by simp, by simp; omega, fun hlt => by simp, fun hn h10 => ?_⟩
    refine ⟨by simp; omega, ?_, ?_⟩
    · show getLevelDropInterval ((g.lines + n) / 10 + 1) = (43 : Rat) / 60 * 1000
      rw [h10]
      norm_num [getLevelDropInterval]
    · show getLevelDropInterval ((g.lines + n) / 10 + 1) = 2150 / 3
      rw [h10]
      norm_num [getLevelDropInterval]
  · refine ⟨by simp; omega, by simp, fun hlt => ?_, fun hn h10 => ?_⟩
    · exact absurd hlt (by simp)
    · exfalso
      omega
  · refine ⟨by simp; omega, by simp, fun hlt => ?_, fun hn h10 => ?_⟩
    · exact absurd hlt (by simp)
    · exfalso
      omega

/-- Witness for rotatePiece_T_0_1: on the empty board the rotated T piece
fits in place, so the rotation commits with no kick and resets the lock
countdown. -/
theorem rotatePiece_T_0_1_witness :
    baseGame.rotatePiece
      = { baseGame.resetLockTimer with currentPiece := baseGame.currentPiece.rotate } := by
  have h := (rotatePiece_T_0_1 baseGame rfl rfl rfl).2
  rw [h]
  rw [if_pos (by decide : baseGame.board.canPlacePiece baseGame.currentPiece.rotate 0 0 = true)]

/-- Witness for lockPiece_scoring: locking the horizontal I piece completing
the bottom row at level 1 with no running combo clears one line and adds
exactly 40 points. -/
theorem lockPiece_scoring_witness :
    (lockGame.lockPiece (Piece.create PieceType.O)).score = 40 ∧
    (lockGame.lockPiece (Piece.create PieceType.O)).lines = 1 ∧
    (lockGame.lockPiece (Piece.create PieceType.O)).combo = 1 := by
  obtain ⟨hL, hC, hS0, hS1⟩ :=
    (lockPiece_scoring lockGame (Piece.create PieceType.O)).1 (by decide) (by decide)
  refine ⟨?_, ?_, ?_⟩
  · rw [hS0 rfl]
    decide
  · rw [hL]
    decide
  · rw [hC]
    decide

/-- Witness for hardDrop_spec at the fresh T piece over the empty board. -/
theorem hardDrop_spec_witness :
    baseGame.hardDrop (Piece.create PieceType.O)
      = TetrisGame.lockPiece
          { baseGame with
            currentPiece :=
              { baseGame.currentPiece with
                  y := baseGame.board.getDropPosition baseGame.currentPiece }
            score := baseGame.score
                + (baseGame.board.getDropPosition baseGame.currentPiece
                    - baseGame.currentPiece.y) * 2 }
          (Piece.create PieceType.O) ∧
    (baseGame.hardDrop (Piece.create PieceType.O)).isLocking = false :=
  ⟨(hardDrop_spec baseGame (Piece.create PieceType.O) rfl).1,
   (hardDrop_spec baseGame (Piece.create PieceType.O) rfl).2.1⟩

/-- Witness for handleLinesCleared_leveling: from 9 lines at level 1, a
single-line clear reaches 10 lines, level 2, and the 2150/3 ms interval. -/
theorem handleLinesCleared_leveling_witness :
    ({ baseGame with lines := 9 }.handleLinesCleared 1).level = 2 ∧
    ({ baseGame with lines := 9 }.handleLinesCleared 1).dropInterval
        = (43 : Rat) / 60 * 1000 := by
  have h := handleLinesCleared_leveling { baseGame with lines := 9 } 1 rfl
  obtain ⟨hlvl, hdrop⟩ := h.2.2.2 (by decide) rfl
  exact ⟨hlvl, hdrop.1⟩
